import Mathlib

/-!
Verification of the observable contract of `src/app.js`.

The file embeds the three library operations of the repository —
`processInput` (input sanitizer), `safeEval` (restricted expression
evaluator) and `processData` (timeout-guarded array transformer) — as
executable Lean definitions, together with the configuration record, and
proves the testable properties stated in the specification.

Modelling conventions:
* JavaScript runtime values that can reach the three operations are
  modelled by the inductive `JsVal` (undefined, null, booleans, numbers,
  strings, arrays).  Numbers are modelled as rationals; no claim below
  exercises float rounding, infinities or NaN.
* Synchronous exceptions are modelled by `Except`.  `processData` is an
  `async function`, so in JavaScript a `throw` in its body rejects the
  returned promise rather than escaping the call; its codomain
  `CallOutcome` distinguishes a synchronous throw from a settled promise,
  and the embedding shows the synchronous side is unreachable.
* The promise executor of `processData` runs synchronously at the
  `new Promise` call, strictly before any `setTimeout` callback can run
  (the event loop only runs timer callbacks once the current synchronous
  job has finished, even for a 0 ms delay).  The embedding therefore lists
  the settle attempts in event-loop order and lets the first one win.
-/

namespace App

/-- The error taxonomy of the specification.  In the source every error is
a plain `Error` with a message; the correspondence is:
`invalidArgument` = "Input must be a non-empty string" / "Expression must
be a string" / "Data must be an array", `tooLong` = "Input too long",
`disallowedCharacters` = "Input contains invalid characters" / "Invalid
characters in expression", `typeError` = "All items must be numbers",
`evaluationError` = "Invalid mathematical expression", `timeout` =
"Processing timeout". -/
inductive Err where
  | invalidArgument
  | tooLong
  | disallowedCharacters
  | typeError
  | evaluationError
  | timeout
deriving DecidableEq

/-- JavaScript runtime values, restricted to the shapes that the three
operations inspect (`typeof`, `Array.isArray`, truthiness). -/
inductive JsVal where
  | undefined
  | null
  | bool (b : Bool)
  | num (q : ℚ)
  | str (s : String)
  | arr (elems : List JsVal)

/-- `typeof v === 'string'`. -/
def JsVal.isStr : JsVal → Bool
  | .str _ => true
  | _ => false

/-- `typeof v === 'number'`. -/
def JsVal.isNum : JsVal → Bool
  | .num _ => true
  | _ => false

/-- `Array.isArray(v)`. -/
def JsVal.isArr : JsVal → Bool
  | .arr _ => true
  | _ => false

/-- The configuration record of `src/app.js` (lines 6-10).  The
allowed-character pattern is embedded separately as `sanAllowedChar`. -/
structure Config where
  maxInputLength : Nat
  timeout : Nat

/-- `config` from `src/app.js`: maxInputLength 1000, timeout 5000 ms. -/
def config : Config := { maxInputLength := 1000, timeout := 5000 }

/-- The JavaScript whitespace class: the characters matched by `\s` in a
regular expression, which is also the set removed by `String.prototype.trim`
(ECMA-262 WhiteSpace and LineTerminator). -/
def wsChar (c : Char) : Bool :=
  decide (c.toNat = 9 ∨ c.toNat = 10 ∨ c.toNat = 11 ∨ c.toNat = 12 ∨
    c.toNat = 13 ∨ c.toNat = 32 ∨ c.toNat = 160 ∨ c.toNat = 5760 ∨
    (8192 ≤ c.toNat ∧ c.toNat ≤ 8202) ∨ c.toNat = 8232 ∨ c.toNat = 8233 ∨
    c.toNat = 8239 ∨ c.toNat = 8287 ∨ c.toNat = 12288 ∨ c.toNat = 65279)

/-- One character of the sanitizer's character class `[a-zA-Z0-9\s\-_]`
(`config.allowedChars`, line 8). -/
def sanAllowedChar (c : Char) : Bool :=
  decide ((65 ≤ c.toNat ∧ c.toNat ≤ 90) ∨ (97 ≤ c.toNat ∧ c.toNat ≤ 122) ∨
    (48 ≤ c.toNat ∧ c.toNat ≤ 57) ∨ c.toNat = 45 ∨ c.toNat = 95) || wsChar c

/-- The test `config.allowedChars.test(input)` with pattern
`^[a-zA-Z0-9\s\-_]+$`: at least one character, all from the class. -/
def allowedCharsTest (s : String) : Bool :=
  !s.toList.isEmpty && s.toList.all sanAllowedChar

/-- One character of the evaluator's character class `[0-9+\-*/().\s]`
(line 46). -/
def evalAllowedChar (c : Char) : Bool :=
  decide ((48 ≤ c.toNat ∧ c.toNat ≤ 57) ∨ c.toNat = 43 ∨ c.toNat = 45 ∨
    c.toNat = 42 ∨ c.toNat = 47 ∨ c.toNat = 40 ∨ c.toNat = 41 ∨
    c.toNat = 46) || wsChar c

/-- The test `/^[0-9+\-*\/().\s]+$/.test(expression)`. -/
def evalCharsTest (s : String) : Bool :=
  !s.toList.isEmpty && s.toList.all evalAllowedChar

/-- `String.prototype.toUpperCase`, one character.  On the character
classes reachable in this program (ASCII letters, digits, `-`, `_`, the
whitespace class and the evaluator symbols) the Unicode uppercase mapping
is exactly the ASCII mapping a-z to A-Z and the identity elsewhere. -/
def jsUpperChar (c : Char) : Char :=
  if 97 ≤ c.toNat ∧ c.toNat ≤ 122 then Char.ofNat (c.toNat - 32) else c

/-- `String.prototype.toUpperCase`. -/
def jsUpper (s : String) : String :=
  String.mk (s.toList.map jsUpperChar)

/-- `String.prototype.trim` on the character list: drop the whitespace
class from the front, then from the back. -/
def trimList (l : List Char) : List Char :=
  List.rdropWhile wsChar (List.dropWhile wsChar l)

/-- `String.prototype.trim`. -/
def jsTrim (s : String) : String :=
  String.mk (trimList s.toList)

/-- `processInput` (src/app.js lines 18-32).  The guard
`!input || typeof input !== 'string'` rejects every non-string value (a
truthy non-string fails the `typeof` test, a falsy one fails `!input`)
and the empty string (the only falsy string). -/
def processInput (input : JsVal) : Except Err String :=
  match input with
  | .str s =>
    if s.length = 0 then .error .invalidArgument
    else if config.maxInputLength < s.length then .error .tooLong
    else if allowedCharsTest s = false then .error .disallowedCharacters
    else .ok (jsUpper (jsTrim s))
  | _ => .error .invalidArgument

/-- Decimal digit `0`-`9`. -/
def isDigitChar (c : Char) : Bool :=
  decide (48 ≤ c.toNat ∧ c.toNat ≤ 57)

/-- Numeric value of a digit string. -/
def digitsToNat (l : List Char) : Nat :=
  l.foldl (fun acc c => acc * 10 + (c.toNat - 48)) 0

/-- Skip whitespace between tokens. -/
def skipWs (l : List Char) : List Char :=
  l.dropWhile wsChar

/-- Parse one decimal literal (`12`, `12.5`, `.5`, `12.`), returning its
value and the rest of the input. -/
def parseNumber (l : List Char) : Option (ℚ × List Char) :=
  let ip := l.takeWhile isDigitChar
  let r1 := l.dropWhile isDigitChar
  match r1 with
  | '.' :: r2 =>
    let fp := r2.takeWhile isDigitChar
    let r3 := r2.dropWhile isDigitChar
    if ip.isEmpty && fp.isEmpty then none
    else some ((digitsToNat ip : ℚ) + (digitsToNat fp : ℚ) / ((10 : ℚ) ^ fp.length), r3)
  | _ =>
    if ip.isEmpty then none else some ((digitsToNat ip : ℚ), r1)

/-- Factor of the arithmetic grammar: a parenthesised expression, a unary
`+`/`-`, or a decimal literal.  `pe` parses a full expression (used inside
parentheses); the fuel bounds the recursion depth. -/
def parseFactorAux (pe : List Char → Option (ℚ × List Char)) :
    Nat → List Char → Option (ℚ × List Char)
  | 0, _ => none
  | f + 1, l =>
    match skipWs l with
    | '(' :: r =>
      match pe r with
      | some (v, r2) =>
        match skipWs r2 with
        | ')' :: r3 => some (v, r3)
        | _ => none
      | none => none
    | '+' :: r => parseFactorAux pe f r
    | '-' :: r =>
      match parseFactorAux pe f r with
      | some (v, r2) => some (-v, r2)
      | none => none
    | l2 => parseNumber l2

/-- Left-associative chain of `*` and `/` after a first factor. -/
def parseTermTailAux (pf : List Char → Option (ℚ × List Char)) :
    Nat → ℚ → List Char → Option (ℚ × List Char)
  | 0, _, _ => none
  | f + 1, acc, l =>
    match skipWs l with
    | '*' :: r =>
      match pf r with
      | some (v, r2) => parseTermTailAux pf f (acc * v) r2
      | none => none
    | '/' :: r =>
      match pf r with
      | some (v, r2) => parseTermTailAux pf f (acc / v) r2
      | none => none
    | _ => some (acc, l)

/-- Left-associative chain of `+` and `-` after a first term. -/
def parseExprTailAux (pt : List Char → Option (ℚ × List Char)) :
    Nat → ℚ → List Char → Option (ℚ × List Char)
  | 0, _, _ => none
  | f + 1, acc, l =>
    match skipWs l with
    | '+' :: r =>
      match pt r with
      | some (v, r2) => parseExprTailAux pt f (acc + v) r2
      | none => none
    | '-' :: r =>
      match pt r with
      | some (v, r2) => parseExprTailAux pt f (acc - v) r2
      | none => none
    | _ => some (acc, l)

/-- Full expression: a term followed by a `+`/`-` chain.  Standard
precedence: `*` and `/` bind tighter than `+` and `-`, all four
left-associative, parentheses override. -/
def parseExpr : Nat → List Char → Option (ℚ × List Char)
  | 0, _ => none
  | f + 1, l =>
    let pf := parseFactorAux (parseExpr f) f
    let pt := fun l2 =>
      match pf l2 with
      | some (v, r) => parseTermTailAux pf f v r
      | none => none
    match pt l with
    | some (v, r) => parseExprTailAux pt f v r
    | none => none

/-- Modelled from the spec: the source's `new Function('return ' +
expression)()` (line 52) delegates numeric evaluation to the JavaScript
engine, which is not part of the repository; following the
specification's own instruction (sections 4.2 and 9) the dynamic-code
path is substituted by a recursive-descent arithmetic evaluator over
`+ - * / ( )` and decimal literals with standard precedence and
left-associativity.  `none` models the evaluation throwing. -/
def parseEval (s : String) : Option ℚ :=
  match parseExpr (s.toList.length + 2) s.toList with
  | some (v, r) => if (skipWs r).isEmpty then some v else none
  | none => none

/-- `safeEval` (src/app.js lines 40-56).  The guard
`!expression || typeof expression !== 'string'` rejects every non-string
value and the empty string; the character class is checked next; the
evaluation step is `parseEval` (see its doc comment). -/
def safeEval (v : JsVal) : Except Err ℚ :=
  match v with
  | .str s =>
    if s.length = 0 then .error .invalidArgument
    else if evalCharsTest s = false then .error .disallowedCharacters
    else
      match parseEval s with
      | some q => .ok q
      | none => .error .evaluationError
  | _ => .error .invalidArgument

/-- A settled promise: `resolve` with a value or `reject` with an error. -/
inductive Settle where
  | resolved (xs : List ℚ)
  | rejected (e : Err)
deriving DecidableEq

/-- Outcome of calling one of the operations that return a promise: either
an exception escapes the call synchronously, or the call returns a promise
that eventually settles. -/
inductive CallOutcome where
  | syncThrow (e : Err)
  | promise (s : Settle)
deriving DecidableEq

/-- Whether an exception escaped the call synchronously. -/
def CallOutcome.isSync : CallOutcome → Bool
  | .syncThrow _ => true
  | _ => false

/-- `data.map(item => { if (typeof item !== 'number') throw ...; return
item * 2 })` (lines 74-79): doubles every element, throwing `typeError`
at the first non-number. -/
def mapDouble : List JsVal → Except Err (List ℚ)
  | [] => .ok []
  | .num q :: rest =>
    match mapDouble rest with
    | .ok l => .ok (q * 2 :: l)
    | .error e => .error e
  | _ :: _ => .error .typeError

/-- The promise executor (lines 68-87) as it runs synchronously at the
`new Promise` call: it maps over the data and then either clears the
timer and resolves (lines 81-82) or clears the timer and rejects
(lines 84-85).  Returns the settle attempt it makes and whether it
called `clearTimeout`; both paths clear the timer. -/
def executorRun (items : List JsVal) : Settle × Bool :=
  match mapDouble items with
  | .ok r => (.resolved r, true)
  | .error e => (.rejected e, true)

/-- The settle attempts on the promise, in event-loop order.  The executor
runs synchronously and attempts first; the timer callback
(`reject(new Error('Processing timeout'))`, line 70) runs only after the
current synchronous job has finished — even for a 0 ms delay — and only
if the timer was not cleared. -/
def settleAttempts (timeoutMs : Nat) (items : List JsVal) : List Settle :=
  match executorRun items with
  | (s, cleared) => s :: (if cleared then [] else [.rejected .timeout])

/-- A promise settles once: the first attempt wins.  The default is never
used because the executor always attempts. -/
def promiseOutcome (timeoutMs : Nat) (items : List JsVal) : Settle :=
  (settleAttempts timeoutMs items).headD (.rejected .timeout)

/-- `processData` (src/app.js lines 63-88), parameterised by the
configured timeout.  `processData` is an `async function`, so the
`throw new Error('Data must be an array')` on line 65 does not escape the
call synchronously: JavaScript delivers it as a rejection of the returned
promise.  No path produces `CallOutcome.syncThrow`. -/
def processDataWith (timeoutMs : Nat) (v : JsVal) : CallOutcome :=
  match v with
  | .arr items => .promise (promiseOutcome timeoutMs items)
  | _ => .promise (.rejected .invalidArgument)

/-- `processData` with the configured timeout of 5000 ms. -/
def processData : JsVal → CallOutcome :=
  processDataWith config.timeout

end App
namespace App

/-- DecidableEq for `Except`, used to evaluate the embedded operations on
concrete inputs. -/
instance {ε α : Type} [DecidableEq ε] [DecidableEq α] : DecidableEq (Except ε α) := fun
  | .ok a, .ok b =>
    if h : a = b then .isTrue (by rw [h]) else .isFalse (fun hh => by cases hh; exact h rfl)
  | .ok _, .error _ => .isFalse (fun hh => by cases hh)
  | .error _, .ok _ => .isFalse (fun hh => by cases hh)
  | .error e, .error f =>
    if h : e = f then .isTrue (by rw [h]) else .isFalse (fun hh => by cases hh; exact h rfl)

theorem string_length_eq (s : String) : s.length = s.toList.length := by
  cases s
  rfl

theorem charToNat_ofNat_lt {n : Nat} (h : n < 55296) : (Char.ofNat n).toNat = n := by
  have hv : n.isValidChar := Or.inl h
  rw [Char.ofNat, dif_pos hv]
  rfl

theorem wsChar_upper (c : Char) : wsChar (jsUpperChar c) = wsChar c := by
  unfold jsUpperChar
  split
  case isTrue h =>
    have h32 : (Char.ofNat (c.toNat - 32)).toNat = c.toNat - 32 :=
      charToNat_ofNat_lt (by omega)
    simp only [wsChar, h32, decide_eq_decide]
    omega
  case isFalse h => rfl

theorem sanAllowed_upper {c : Char} (h : sanAllowedChar c = true) :
    sanAllowedChar (jsUpperChar c) = true := by
  unfold jsUpperChar
  split
  case isTrue hc =>
    have h32 : (Char.ofNat (c.toNat - 32)).toNat = c.toNat - 32 :=
      charToNat_ofNat_lt (by omega)
    simp only [sanAllowedChar, Bool.or_eq_true, decide_eq_true_eq, h32]
    left
    omega
  case isFalse hc => exact h

theorem upper_idem (c : Char) : jsUpperChar (jsUpperChar c) = jsUpperChar c := by
  by_cases h : 97 ≤ c.toNat ∧ c.toNat ≤ 122
  · have e1 : jsUpperChar c = Char.ofNat (c.toNat - 32) := by
      unfold jsUpperChar
      rw [if_pos h]
    have h32 : (Char.ofNat (c.toNat - 32)).toNat = c.toNat - 32 :=
      charToNat_ofNat_lt (by omega)
    rw [e1]
    unfold jsUpperChar
    rw [if_neg (by rw [h32]; omega)]
  · have e1 : jsUpperChar c = c := by
      unfold jsUpperChar
      rw [if_neg h]
    rw [e1, e1]

theorem dropWhile_head_false {α : Type} (p : α → Bool) (l : List α) :
    ∀ (a : α) (t : List α), List.dropWhile p l = a :: t → p a = false := by
  induction l with
  | nil => intro a t h; simp [List.dropWhile] at h
  | cons b l ih =>
    intro a t h
    by_cases hp : p b = true
    · rw [List.dropWhile_cons, if_pos hp] at h
      exact ih a t h
    · rw [List.dropWhile_cons, if_neg hp] at h
      injection h with h1 h2
      subst h1
      exact Bool.eq_false_iff.mpr hp

theorem trimList_head {l : List Char} {a : Char} {t : List Char}
    (h : trimList l = a :: t) : wsChar a = false := by
  obtain ⟨u, hu⟩ := ( List.rdropWhile_prefix wsChar (List.dropWhile wsChar l))
  rw [show List.rdropWhile wsChar (List.dropWhile wsChar l) = trimList l from rfl, h] at hu
  exact dropWhile_head_false wsChar l a (t ++ u) (by rw [← hu]; rfl)

theorem trimList_rev_head {l : List Char} {a : Char} {t : List Char}
    (h : (trimList l).reverse = a :: t) : wsChar a = false := by
  have e : (trimList l).reverse = List.dropWhile wsChar (List.dropWhile wsChar l).reverse := by
    unfold trimList List.rdropWhile
    rw [List.reverse_reverse]
  rw [e] at h
  exact dropWhile_head_false wsChar _ a t h

theorem trimList_sublist (l : List Char) : List.Sublist (trimList l) l :=
  (( List.rdropWhile_prefix wsChar (List.dropWhile wsChar l)).sublist).trans
    ((List.dropWhile_suffix wsChar).sublist)

theorem trimList_map_upper (l : List Char) :
    trimList ((trimList l).map jsUpperChar) = (trimList l).map jsUpperChar := by
  have h1 : List.dropWhile wsChar ((trimList l).map jsUpperChar) =
      (trimList l).map jsUpperChar := by
    cases ht : trimList l with
    | nil => rfl
    | cons a t =>
      have ha : wsChar a = false := trimList_head ht
      rw [List.map_cons, List.dropWhile_cons, if_neg (by rw [wsChar_upper, ha]; simp)]
  have h2 : List.rdropWhile wsChar ((trimList l).map jsUpperChar) =
      (trimList l).map jsUpperChar := by
    unfold List.rdropWhile
    rw [← List.map_reverse]
    cases hr : (trimList l).reverse with
    | nil =>
      have : trimList l = [] := by
        rw [← List.reverse_reverse (trimList l), hr]
        rfl
      rw [this]
      rfl
    | cons b r =>
      have hb : wsChar b = false := trimList_rev_head hr
      rw [List.map_cons, List.dropWhile_cons, if_neg (by rw [wsChar_upper, hb]; simp)]
      rw [← List.map_cons, ← hr, List.map_reverse, List.reverse_reverse]
  show List.rdropWhile wsChar (List.dropWhile wsChar ((trimList l).map jsUpperChar)) = _
  rw [h1, h2]

theorem map_upper_idem (l : List Char) :
    (l.map jsUpperChar).map jsUpperChar = l.map jsUpperChar := by
  induction l with
  | nil => rfl
  | cons a t ih => simp only [List.map_cons, ih, upper_idem]

end App

namespace App

theorem processInput_ok (s : String) (hp : allowedCharsTest s = true)
    (hl : s.length ≤ config.maxInputLength) :
    processInput (.str s) = .ok (jsUpper (jsTrim s)) := by
  have hp' := hp
  simp only [allowedCharsTest, Bool.and_eq_true, Bool.not_eq_true'] at hp'
  obtain ⟨h1, h2⟩ := hp'
  have hne : s.toList ≠ [] := List.isEmpty_eq_false.mp h1
  have h0 : ¬ s.length = 0 := by
    rw [string_length_eq]
    intro hz
    exact hne (List.eq_nil_of_length_eq_zero hz)
  simp only [processInput]
  rw [if_neg h0, if_neg (by omega), if_neg (by rw [hp]; simp)]

theorem mapDouble_map_num (qs : List ℚ) :
    mapDouble (qs.map JsVal.num) = .ok (qs.map (fun q => q * 2)) := by
  induction qs with
  | nil => rfl
  | cons q t ih => simp only [List.map_cons, mapDouble, ih]

theorem mapDouble_error {items : List JsVal} {e : Err}
    (h : mapDouble items = .error e) : e = .typeError := by
  induction items with
  | nil => simp [mapDouble] at h
  | cons v t ih =>
    cases v with
    | num q =>
      rw [mapDouble] at h
      cases hm : mapDouble t with
      | ok l => rw [hm] at h; simp at h
      | error e2 =>
        rw [hm] at h
        injection h with he
        subst he
        exact ih hm
    | undefined => injection h with he; exact he.symm
    | null => injection h with he; exact he.symm
    | bool b => injection h with he; exact he.symm
    | str s => injection h with he; exact he.symm
    | arr l => injection h with he; exact he.symm

theorem mapDouble_typeError {items : List JsVal}
    (h : ∃ v ∈ items, v.isNum = false) : mapDouble items = .error .typeError := by
  induction items with
  | nil => obtain ⟨v, hv, _⟩ := h; simp at hv
  | cons w t ih =>
    obtain ⟨v, hv, hnum⟩ := h
    cases w with
    | num q =>
      have hvt : v ∈ t := by
        rcases List.mem_cons.mp hv with h' | h'
        · subst h'; simp [JsVal.isNum] at hnum
        · exact h'
      rw [mapDouble, ih ⟨v, hvt, hnum⟩]
    | undefined => rfl
    | null => rfl
    | bool b => rfl
    | str s => rfl
    | arr l => rfl

theorem mapDouble_replicate (n : Nat) :
    mapDouble (List.replicate n (.num 1)) = .ok (List.replicate n (2 : ℚ)) := by
  induction n with
  | zero => rfl
  | succ m ih =>
    rw [List.replicate_succ, List.replicate_succ, mapDouble, ih]
    norm_num

theorem executorRun_ok {items : List JsVal} {r : List ℚ}
    (h : mapDouble items = .ok r) : executorRun items = (.resolved r, true) := by
  simp [executorRun, h]

theorem executorRun_err {items : List JsVal} {e : Err}
    (h : mapDouble items = .error e) : executorRun items = (.rejected e, true) := by
  simp [executorRun, h]

theorem promiseOutcome_eq (t : Nat) (items : List JsVal) :
    promiseOutcome t items = (executorRun items).1 := by
  unfold promiseOutcome settleAttempts
  rcases executorRun items with ⟨s, c⟩
  rfl

end App
namespace App

/-- Claim C1 (code bug): the specification says that with the timeout
configured to 0 and a sufficiently large input array, processData fails
with Timeout.  In the code the promise executor runs synchronously to
completion and clears the timer on both of its paths, and the promise is
already settled when the timer callback could first run, so the Timeout
rejection can never be delivered: for every configured timeout and every
argument the outcome is never a Timeout rejection, and with timeout 0 and
an array of 100000 numbers the promise still resolves with the doubled
array. -/
theorem claim_C1_timeout_never_fires :
    (∀ (timeoutMs : Nat) (v : JsVal),
      processDataWith timeoutMs v ≠ .promise (.rejected .timeout)) ∧
    processDataWith 0 (.arr (List.replicate 100000 (.num 1))) =
      .promise (.resolved (List.replicate 100000 (2 : ℚ))) := by
  constructor
  · intro t v
    cases v with
    | arr items =>
      rw [processDataWith, promiseOutcome_eq]
      cases hm : mapDouble items with
      | ok r => rw [executorRun_ok hm]; simp
      | error e =>
        rw [executorRun_err hm]
        have he : e = .typeError := mapDouble_error hm
        subst he
        simp
    | undefined => simp [processDataWith]
    | null => simp [processDataWith]
    | bool b => simp [processDataWith]
    | num q => simp [processDataWith]
    | str s => simp [processDataWith]
  · rw [processDataWith, promiseOutcome_eq, executorRun_ok (mapDouble_replicate 100000)]

/-- Claim C4 counterexample: calling processData with a non-array does
not raise InvalidArgument synchronously; because processData is an async
function the error is surfaced through the deferred result channel (the
returned promise rejects with InvalidArgument). -/
theorem claim_C4_counterexample :
    CallOutcome.isSync (processDataWith config.timeout JsVal.null) = false ∧
    processDataWith config.timeout JsVal.null =
      .promise (.rejected .invalidArgument) :=
  ⟨rfl, rfl⟩

/-- Claim C4, amended: errors from the sanitizer and the evaluator are
raised synchronously (their embeddings return `Except` directly), but
every error from processData — including InvalidArgument for a
non-sequence argument — is surfaced through the deferred result channel,
because processData is an async function: no call outcome is a
synchronous throw, and a non-array argument yields a promise rejected
with InvalidArgument. -/
theorem claim_C4_deferred_invalid_argument :
    (∀ (timeoutMs : Nat) (v : JsVal),
      (processDataWith timeoutMs v).isSync = false) ∧
    (∀ (timeoutMs : Nat) (v : JsVal), v.isArr = false →
      processDataWith timeoutMs v = .promise (.rejected .invalidArgument)) := by
  constructor
  · intro t v
    cases v with
    | arr items => rfl
    | undefined => rfl
    | null => rfl
    | bool b => rfl
    | num q => rfl
    | str s => rfl
  · intro t v hv
    cases v with
    | arr items => simp [JsVal.isArr] at hv
    | undefined => rfl
    | null => rfl
    | bool b => rfl
    | num q => rfl
    | str s => rfl

theorem claim_C4_witness :
    (processDataWith 0 (JsVal.num 3)).isSync = false ∧
    processDataWith 0 (JsVal.num 3) = .promise (.rejected .invalidArgument) :=
  ⟨claim_C4_deferred_invalid_argument.1 0 (JsVal.num 3),
    claim_C4_deferred_invalid_argument.2 0 (JsVal.num 3) rfl⟩

unseal Rat.mul in
/-- Claim C7: for every sequence whose elements are all numbers,
processData succeeds through the deferred result with the sequence of
doubled elements (hence of the same length), for any configured timeout;
in particular the transformer maps [1,2,3,4,5] to [2,4,6,8,10]. -/
theorem claim_C7_doubles_numeric_arrays :
    (∀ (timeoutMs : Nat) (qs : List ℚ),
      processDataWith timeoutMs (.arr (qs.map JsVal.num)) =
        .promise (.resolved (qs.map (fun q => q * 2))) ∧
      (qs.map (fun q => q * 2)).length = qs.length) ∧
    processData (.arr [.num 1, .num 2, .num 3, .num 4, .num 5]) =
      .promise (.resolved [2, 4, 6, 8, 10]) := by
  constructor
  · intro t qs
    constructor
    · rw [processDataWith, promiseOutcome_eq, executorRun_ok (mapDouble_map_num qs)]
    · exact List.length_map qs _
  · decide

/-- Claim C8: processData rejects with InvalidArgument for every argument
that is not a sequence, and rejects with TypeError for every sequence
containing at least one non-numeric element; in both cases the promise is
rejected, so no result sequence is produced. -/
theorem claim_C8_transformer_errors :
    (∀ (timeoutMs : Nat) (v : JsVal), v.isArr = false →
      processDataWith timeoutMs v = .promise (.rejected .invalidArgument)) ∧
    (∀ (timeoutMs : Nat) (items : List JsVal), (∃ v ∈ items, v.isNum = false) →
      processDataWith timeoutMs (.arr items) = .promise (.rejected .typeError)) ∧
    processData (.arr [.num 1, .str "x", .num 3]) = .promise (.rejected .typeError) := by
  refine ⟨?_, ?_, by decide⟩
  · intro t v hv
    cases v with
    | arr items => simp [JsVal.isArr] at hv
    | undefined => rfl
    | null => rfl
    | bool b => rfl
    | num q => rfl
    | str s => rfl
  · intro t items h
    rw [processDataWith, promiseOutcome_eq, executorRun_err (mapDouble_typeError h)]

theorem claim_C8_witness :
    processDataWith 5000 (JsVal.str "nope") = .promise (.rejected .invalidArgument) ∧
    processDataWith 5000 (.arr [.num 1, .str "x", .num 3]) =
      .promise (.rejected .typeError) :=
  ⟨claim_C8_transformer_errors.1 5000 (JsVal.str "nope") rfl,
    claim_C8_transformer_errors.2.1 5000 [.num 1, .str "x", .num 3]
      ⟨.str "x", List.Mem.tail _ (List.Mem.head _), rfl⟩⟩

end App
set_option maxRecDepth 12000

namespace App

/-- Claim C3: for every string that matches the allowed pattern (letters,
digits, whitespace, hyphen, underscore, at least one character) and whose
length does not exceed the configured maximum of 1000, processInput
succeeds and returns exactly the input trimmed of surrounding whitespace
and then upper-cased; the embedding is a pure function, so there are no
side effects. -/
theorem claim_C3_sanitizer_success (s : String)
    (hp : allowedCharsTest s = true) (hl : s.length ≤ config.maxInputLength) :
    processInput (.str s) = .ok (jsUpper (jsTrim s)) :=
  processInput_ok s hp hl

theorem claim_C3_witness :
    allowedCharsTest "  hello World -_ 9 " = true ∧
    ("  hello World -_ 9 " : String).length ≤ config.maxInputLength ∧
    processInput (.str "  hello World -_ 9 ") =
      .ok (jsUpper (jsTrim "  hello World -_ 9 ")) ∧
    jsUpper (jsTrim "  hello World -_ 9 ") = "HELLO WORLD -_ 9" :=
  ⟨by decide, by decide,
    claim_C3_sanitizer_success "  hello World -_ 9 " (by decide) (by decide),
    by decide⟩

/-- Claim C2 counterexample: the single-space string matches the allowed
pattern and is within the length bound, but sanitizing it yields the
empty string, and sanitizing the empty string fails with InvalidArgument,
so processInput is not idempotent on its whole success domain. -/
theorem claim_C2_counterexample :
    allowedCharsTest " " = true ∧
    (" " : String).length ≤ config.maxInputLength ∧
    processInput (.str " ") = .ok "" ∧
    processInput (.str "") = .error .invalidArgument := by
  refine ⟨by decide, by decide, by decide, rfl⟩

/-- Claim C2, amended: processInput is idempotent on the part of its
success domain whose trimmed value is non-empty: for every text input
matching the allowed pattern, within the length bound, and containing at
least one non-whitespace character (equivalently, whose trim is not the
empty string), applying processInput to processInput's output succeeds
and yields the same value again. -/
theorem claim_C2_sanitizer_idempotent (s : String)
    (hp : allowedCharsTest s = true) (hl : s.length ≤ config.maxInputLength)
    (ht : jsTrim s ≠ "") :
    processInput (.str s) = .ok (jsUpper (jsTrim s)) ∧
    processInput (.str (jsUpper (jsTrim s))) = .ok (jsUpper (jsTrim s)) := by
  have h1 := processInput_ok s hp hl
  refine ⟨h1, ?_⟩
  have hp' := hp
  simp only [allowedCharsTest, Bool.and_eq_true, Bool.not_eq_true'] at hp'
  obtain ⟨hne1, hall⟩ := hp'
  have htl : (jsUpper (jsTrim s)).toList = (trimList s.toList).map jsUpperChar := rfl
  have hnonempty : trimList s.toList ≠ [] := by
    intro h0
    apply ht
    show String.mk (trimList s.toList) = ""
    rw [h0]
  have hallow : allowedCharsTest (jsUpper (jsTrim s)) = true := by
    simp only [allowedCharsTest, htl, Bool.and_eq_true, Bool.not_eq_true']
    constructor
    · rw [List.isEmpty_eq_false]
      intro hmap
      exact hnonempty (List.map_eq_nil_iff.mp hmap)
    · rw [List.all_eq_true]
      intro c hc
      rcases List.mem_map.mp hc with ⟨a, ha, rfl⟩
      have has : a ∈ s.toList := (trimList_sublist s.toList).subset ha
      exact sanAllowed_upper ((List.all_eq_true.mp hall) a has)
  have hlen : (jsUpper (jsTrim s)).length ≤ config.maxInputLength := by
    have e1 : (jsUpper (jsTrim s)).length = (trimList s.toList).length := by
      rw [string_length_eq, htl, List.length_map]
    have e2 : (trimList s.toList).length ≤ s.toList.length :=
      (trimList_sublist s.toList).length_le
    rw [string_length_eq] at hl
    omega
  have h2 := processInput_ok (jsUpper (jsTrim s)) hallow hlen
  rw [h2]
  have htrim2 : jsTrim (jsUpper (jsTrim s)) = jsUpper (jsTrim s) := by
    show String.mk (trimList ((jsUpper (jsTrim s)).toList)) = jsUpper (jsTrim s)
    rw [htl, trimList_map_upper]
    rfl
  rw [htrim2]
  show Except.ok (String.mk (((trimList s.toList).map jsUpperChar).map jsUpperChar)) =
    Except.ok (String.mk ((trimList s.toList).map jsUpperChar))
  rw [map_upper_idem]

theorem claim_C2_witness :
    allowedCharsTest " ab c " = true ∧
    (" ab c " : String).length ≤ config.maxInputLength ∧
    jsTrim " ab c " ≠ "" ∧
    processInput (.str " ab c ") = .ok (jsUpper (jsTrim " ab c ")) ∧
    processInput (.str (jsUpper (jsTrim " ab c "))) = .ok (jsUpper (jsTrim " ab c ")) :=
  ⟨by decide, by decide, by decide,
    (claim_C2_sanitizer_idempotent " ab c " (by decide) (by decide) (by decide)).1,
    (claim_C2_sanitizer_idempotent " ab c " (by decide) (by decide) (by decide)).2⟩

/-- Claim C9 counterexample: a string of 1001 `<` characters contains
characters outside the allowed class, yet processInput fails with
TooLong, not DisallowedCharacters, because the length check runs before
the pattern check. -/
theorem claim_C9_counterexample :
    processInput (.str (String.mk (List.replicate 1001 '<'))) = .error .tooLong ∧
    Err.tooLong ≠ Err.disallowedCharacters := by
  refine ⟨by decide, by decide⟩

/-- Claim C9, amended: processInput fails with InvalidArgument for every
non-text argument and for empty text; fails with TooLong for every string
whose length exceeds the configured maximum of 1000; and fails with
DisallowedCharacters for every string within the length bound that
contains a character outside letters, digits, whitespace, hyphen and
underscore. -/
theorem claim_C9_sanitizer_errors :
    (∀ v : JsVal, v.isStr = false → processInput v = .error .invalidArgument) ∧
    processInput (.str "") = .error .invalidArgument ∧
    (∀ s : String, config.maxInputLength < s.length →
      processInput (.str s) = .error .tooLong) ∧
    (∀ s : String, s.length ≤ config.maxInputLength →
      (∃ c ∈ s.toList, sanAllowedChar c = false) →
      processInput (.str s) = .error .disallowedCharacters) := by
  refine ⟨?_, rfl, ?_, ?_⟩
  · intro v hv
    cases v with
    | str s => simp [JsVal.isStr] at hv
    | undefined => rfl
    | null => rfl
    | bool b => rfl
    | num q => rfl
    | arr l => rfl
  · intro s h
    simp only [processInput]
    rw [if_neg (by intro h0; rw [h0] at h; exact Nat.not_lt_zero _ h), if_pos h]
  · intro s hlen h
    obtain ⟨c, hc, hbad⟩ := h
    have hne : s.toList ≠ [] := by
      intro h0
      rw [h0] at hc
      simp at hc
    have hall : s.toList.all sanAllowedChar = false := by
      cases hA : s.toList.all sanAllowedChar
      · rfl
      · exact absurd ((List.all_eq_true.mp hA) c hc) (by simp [hbad])
    have htest : allowedCharsTest s = false := by
      unfold allowedCharsTest
      rw [hall, Bool.and_false]
    have h0 : ¬ s.length = 0 := by
      rw [string_length_eq]
      intro hz
      exact hne (List.eq_nil_of_length_eq_zero hz)
    simp only [processInput]
    rw [if_neg h0, if_neg (by omega), if_pos (by rw [htest])]

theorem claim_C9_witness :
    JsVal.isStr (JsVal.num 7) = false ∧
    processInput (JsVal.num 7) = .error .invalidArgument ∧
    config.maxInputLength < (String.mk (List.replicate 1001 'a')).length ∧
    processInput (.str (String.mk (List.replicate 1001 'a'))) = .error .tooLong ∧
    (∃ c ∈ "<script>".toList, sanAllowedChar c = false) ∧
    processInput (.str "<script>") = .error .disallowedCharacters :=
  ⟨rfl, claim_C9_sanitizer_errors.1 (JsVal.num 7) rfl,
    by decide,
    claim_C9_sanitizer_errors.2.2.1 (String.mk (List.replicate 1001 'a')) (by decide),
    ⟨'<', by decide, by decide⟩,
    claim_C9_sanitizer_errors.2.2.2 "<script>" (by decide) ⟨'<', by decide, by decide⟩⟩

/-- Claim C10: for every non-empty string consisting only of whitespace
characters (and of length at most 1000), processInput succeeds and
returns the empty string, even though processInput rejects the empty
string as an input: the length and pattern checks run on the untrimmed
input and trimming happens only afterwards. -/
theorem claim_C10_whitespace_only (s : String) (h1 : s.toList ≠ [])
    (h2 : s.toList.all wsChar = true) (h3 : s.length ≤ config.maxInputLength) :
    processInput (.str s) = .ok "" ∧ processInput (.str "") = .error .invalidArgument := by
  have hallow : allowedCharsTest s = true := by
    simp only [allowedCharsTest, Bool.and_eq_true, Bool.not_eq_true']
    refine ⟨List.isEmpty_eq_false.mpr h1, ?_⟩
    rw [List.all_eq_true]
    intro c hc
    have hw := (List.all_eq_true.mp h2) c hc
    simp only [sanAllowedChar, Bool.or_eq_true]
    right
    exact hw
  have h4 := processInput_ok s hallow h3
  have htrim : trimList s.toList = [] := by
    unfold trimList
    have hd : List.dropWhile wsChar s.toList = [] := by
      rw [List.dropWhile_eq_nil_iff]
      intro x hx
      exact (List.all_eq_true.mp h2) x hx
    rw [hd]
    rfl
  rw [h4]
  constructor
  · have e1 : jsTrim s = "" := by
      show String.mk (trimList s.toList) = ""
      rw [htrim]
    rw [e1]
    decide
  · rfl

theorem claim_C10_witness :
    ("  " : String).toList ≠ [] ∧
    ("  " : String).toList.all wsChar = true ∧
    ("  " : String).length ≤ config.maxInputLength ∧
    processInput (.str "  ") = .ok "" ∧
    processInput (.str "") = .error .invalidArgument :=
  ⟨by decide, by decide, by decide,
    (claim_C10_whitespace_only "  " (by decide) (by decide) (by decide)).1,
    (claim_C10_whitespace_only "  " (by decide) (by decide) (by decide)).2⟩

end App
namespace App

unseal Rat.mul Rat.add in
/-- Claim C5: the evaluator computes with standard operator precedence and
left-associativity over plus, minus, times, divide, parentheses and
decimal literals: safeEval on "2 + 3 * 4" returns 14 (multiplication
binds tighter) and on "(2+3)*4" returns 20 (parentheses override). -/
theorem claim_C5_evaluator_precedence :
    safeEval (.str "2 + 3 * 4") = .ok 14 ∧ safeEval (.str "(2+3)*4") = .ok 20 := by
  constructor
  · decide
  · decide

/-- Claim C6: safeEval fails with InvalidArgument for every non-text
argument; fails with DisallowedCharacters for every string containing a
character outside digits, the four operators, parentheses, dot and
whitespace (for example "alert(1)"); and fails with EvaluationError for
every string that passes the character check but on which the arithmetic
evaluation fails (for example "2 +"). -/
theorem claim_C6_evaluator_errors :
    (∀ v : JsVal, v.isStr = false → safeEval v = .error .invalidArgument) ∧
    (∀ s : String, (∃ c ∈ s.toList, evalAllowedChar c = false) →
      safeEval (.str s) = .error .disallowedCharacters) ∧
    safeEval (.str "alert(1)") = .error .disallowedCharacters ∧
    (∀ s : String, evalCharsTest s = true → parseEval s = none →
      safeEval (.str s) = .error .evaluationError) ∧
    safeEval (.str "2 +") = .error .evaluationError := by
  refine ⟨?_, ?_, by decide, ?_, by decide⟩
  · intro v hv
    cases v with
    | str s => simp [JsVal.isStr] at hv
    | undefined => rfl
    | null => rfl
    | bool b => rfl
    | num q => rfl
    | arr l => rfl
  · intro s h
    obtain ⟨c, hc, hbad⟩ := h
    have hne : s.toList ≠ [] := by
      intro h0
      rw [h0] at hc
      simp at hc
    have hall : s.toList.all evalAllowedChar = false := by
      cases hA : s.toList.all evalAllowedChar
      · rfl
      · exact absurd ((List.all_eq_true.mp hA) c hc) (by simp [hbad])
    have htest : evalCharsTest s = false := by
      unfold evalCharsTest
      rw [hall, Bool.and_false]
    have h0 : ¬ s.length = 0 := by
      rw [string_length_eq]
      intro hz
      exact hne (List.eq_nil_of_length_eq_zero hz)
    simp only [safeEval]
    rw [if_neg h0, if_pos (by rw [htest])]
  · intro s htest hparse
    have h0 : ¬ s.length = 0 := by
      have := htest
      simp only [evalCharsTest, Bool.and_eq_true, Bool.not_eq_true'] at this
      obtain ⟨h1, _⟩ := this
      rw [string_length_eq]
      intro hz
      exact (List.isEmpty_eq_false.mp h1) (List.eq_nil_of_length_eq_zero hz)
    simp only [safeEval]
    rw [if_neg h0, if_neg (by rw [htest]; simp), hparse]

theorem claim_C6_witness :
    JsVal.isStr JsVal.undefined = false ∧
    safeEval JsVal.undefined = .error .invalidArgument ∧
    (∃ c ∈ "alert(1)".toList, evalAllowedChar c = false) ∧
    safeEval (.str "alert(1)") = .error .disallowedCharacters ∧
    evalCharsTest "2 +" = true ∧
    parseEval "2 +" = none ∧
    safeEval (.str "2 +") = .error .evaluationError :=
  ⟨rfl, claim_C6_evaluator_errors.1 JsVal.undefined rfl,
    ⟨'a', by decide, by decide⟩,
    claim_C6_evaluator_errors.2.1 "alert(1)" ⟨'a', by decide, by decide⟩,
    by decide, by decide,
    claim_C6_evaluator_errors.2.2.2.1 "2 +" (by decide) (by decide)⟩

end App
